import Mathlib

/-!
Shallow embedding of the prepared-statement virtualization layer declared in
src/include/MySQL_PreparedStatement.h (classes MySQL_STMTs_local,
MySQL_STMT_Global_info and MySQL_STMT_Manager).

Each std::map is embedded as an association list with the operations the code
uses: find (mapLookup), overwrite-free insert (std::map::insert, mapInsert),
overwriting store for in-place descriptor updates (mapSet) and key removal
(mapErase).  Backend statement handles (MYSQL_STMT pointers) are opaque to
this layer and are embedded as Nat; NULL pointer results are embedded as
Option.  The header only declares the bodies of MySQL_STMT_Manager's
operations, MySQL_STMTs_local::erase and the hash computation; those bodies
are modelled from the specification, as marked on each definition.
-/

/-- std::map::find on the association-list embedding: first matching key wins. -/
def mapLookup {α : Type} : List (Nat × α) → Nat → Option α
  | [], _ => none
  | a :: t, k => if a.1 = k then some a.2 else mapLookup t k

/-- Overwriting store at key `k` (used for in-place updates of a stored value). -/
def mapSet {α : Type} : List (Nat × α) → Nat → α → List (Nat × α)
  | [], k, v => [(k, v)]
  | a :: t, k, v => if a.1 = k then (k, v) :: t else a :: mapSet t k v

/-- std::map::erase by key on the association-list embedding. -/
def mapErase {α : Type} : List (Nat × α) → Nat → List (Nat × α)
  | [], _ => []
  | a :: t, k => if a.1 = k then mapErase t k else a :: mapErase t k

/-- Keys are pairwise distinct (the std::map key-uniqueness invariant). -/
def KeysND {α : Type} (l : List (Nat × α)) : Prop :=
  l.Pairwise (fun a b => a.1 ≠ b.1)

/-! ## Content fingerprint -/
/-- Injective numeric encoding of a list: each element is delimited from the
rest with an injective pairing (empty list encodes to 0). -/
def encList : List Nat → Nat
  | [] => 0
  | a :: t => Nat.pair a (encList t) + 1

/-- Injective numeric encoding of a string via its character codes. -/
def encStr (s : String) : Nat := encList (s.toList.map Char.toNat)

/-- Modelled from the spec: the bodies of `MySQL_STMTs_local::compute_hash` and
`MySQL_STMT_Global_info::compute_hash` are not in src/include (declarations
only).  The spec requires a deterministic fingerprint over
`(hostgroup, user, schema, query)` that is field-boundary-safe, "e.g. by
length-prefixing or delimiting each field before hashing with a high-quality
64-bit (or larger) hash"; the model delimits each field with an injective
pairing, i.e. a "larger" hash that is exactly collision-free. -/
def MySQL_STMTs_local.compute_hash (hostgroup : Nat) (user schema query : String)
    (query_length : Nat) : Nat :=
  Nat.pair hostgroup (Nat.pair (encStr user) (Nat.pair (encStr schema)
    (Nat.pair (encStr query) query_length)))

/-! ## MySQL_STMTs_local: the per-connection statement table -/
/-- std::map::insert on the embedding: inserts the pair only when the key is
absent; the Bool is the `ret.second` flag reporting whether insertion took
place. -/
def mapInsert {α : Type} (l : List (Nat × α)) (k : Nat) (v : α) :
    List (Nat × α) × Bool :=
  match mapLookup l k with
  | some _ => (l, false)
  | none => ((k, v) :: l, true)

/-- State of class MySQL_STMTs_local: the entry counter and the map from
global statement id to the connection-local MYSQL_STMT handle (embedded as
Nat). -/
structure MySQL_STMTs_local where
  num_entries : Nat
  m : List (Nat × Nat)
deriving DecidableEq

/-- Constructor MySQL_STMTs_local(): `num_entries=0`, empty map. -/
def MySQL_STMTs_local.init : MySQL_STMTs_local := ⟨0, []⟩

/-- MySQL_STMTs_local::insert from the header: `ret=m.insert(...)`, and
`num_entries++` only when `ret.second==true`.  The source function returns
`void`, embedded as the `Unit` component of the result. -/
def MySQL_STMTs_local.insert (t : MySQL_STMTs_local)
    (global_statement_id : Nat) (stmt : Nat) : Unit × MySQL_STMTs_local :=
  let ret := mapInsert t.m global_statement_id stmt
  if ret.2 = true then ((), ⟨t.num_entries + 1, ret.1⟩)
  else ((), ⟨t.num_entries, ret.1⟩)

/-- MySQL_STMTs_local::find from the header: `s->second` when found, NULL
(embedded as `none`) otherwise. -/
def MySQL_STMTs_local.find (t : MySQL_STMTs_local)
    (global_statement_id : Nat) : Option Nat :=
  mapLookup t.m global_statement_id

/-- Modelled from the spec: the body of `MySQL_STMTs_local::erase` is not in
src/include (declaration only).  Spec 4.1: "erase(statement_id) -> found:
bool: removes the entry if present"; spec 3 keeps `entry_count` equal to the
number of active mappings, so a successful removal decrements it. -/
def MySQL_STMTs_local.erase (t : MySQL_STMTs_local)
    (global_statement_id : Nat) : Bool × MySQL_STMTs_local :=
  match mapLookup t.m global_statement_id with
  | some _ => (true, ⟨t.num_entries - 1, mapErase t.m global_statement_id⟩)
  | none => (false, t)

/-! ## MySQL_STMT_Global_info and MySQL_STMT_Manager -/
/-- Class MySQL_STMT_Global_info: the shared metadata of one prepared
statement.  Only the fields the registry logic reads or writes are embedded
(hash, identifying fields, ref_count, statement_id); the result-shape caches
(num_columns, num_params, warning_count, fields) and the properties bundle are
opaque payload never inspected by the registry operations. -/
structure MySQL_STMT_Global_info where
  hash : Nat
  username : String
  schemaname : String
  query : String
  query_length : Nat
  hostgroup_id : Nat
  ref_count : Int
  statement_id : Nat
deriving DecidableEq

/-- State of class MySQL_STMT_Manager: the id counter and the two descriptor
indices (`m` by statement id, `h` by content hash).  The rwlock serializes the
operations; each operation below is one such serialized atomic step. -/
structure MySQL_STMT_Manager where
  next_statement_id : Nat
  m : List (Nat × MySQL_STMT_Global_info)
  h : List (Nat × MySQL_STMT_Global_info)
deriving DecidableEq

/-- Modelled from the spec: the constructor MySQL_STMT_Manager() is not in
src/include (declaration only); spec 3: `next_statement_id` "starts such that
the first issued identifier is 1", both indices empty. -/
def MySQL_STMT_Manager.init : MySQL_STMT_Manager := ⟨1, [], []⟩

/-- A content tuple as passed to add_prepared_statement (the backend
MYSQL_STMT argument only feeds the opaque result-shape caches and is
omitted). -/
structure StmtContent where
  hostgroup : Nat
  user : String
  schema : String
  query : String
  query_length : Nat
deriving DecidableEq

/-- Fingerprint of a content tuple. -/
def StmtContent.fp (c : StmtContent) : Nat :=
  MySQL_STMTs_local.compute_hash c.hostgroup c.user c.schema c.query c.query_length

/-- Modelled from the spec: the body of
`MySQL_STMT_Manager::add_prepared_statement` is not in src/include
(declaration only).  Spec 4.3: compute the fingerprint and look it up in the
fingerprint index; on a hit increment that descriptor's `reference_count` by 1
and return the existing descriptor; on a miss allocate
`statement_id = next_statement_id++`, construct a descriptor with
`reference_count = 1` and insert it into both indices.  The whole sequence is
one atomic step under the write lock.  Updating the shared descriptor is
embedded by storing the updated value in both indices. -/
def MySQL_STMT_Manager.add_prepared_statement (st : MySQL_STMT_Manager)
    (hostgroup : Nat) (user schema query : String) (query_length : Nat) :
    MySQL_STMT_Global_info × MySQL_STMT_Manager :=
  let fp := MySQL_STMTs_local.compute_hash hostgroup user schema query query_length
  match mapLookup st.h fp with
  | some d =>
    let d' : MySQL_STMT_Global_info := { d with ref_count := d.ref_count + 1 }
    (d', { st with m := mapSet st.m d.statement_id d', h := mapSet st.h fp d' })
  | none =>
    let d : MySQL_STMT_Global_info :=
      ⟨fp, user, schema, query, query_length, hostgroup, 1, st.next_statement_id⟩
    (d, ⟨st.next_statement_id + 1,
         mapSet st.m st.next_statement_id d, mapSet st.h fp d⟩)

/-- add_prepared_statement on a packed content tuple. -/
def MySQL_STMT_Manager.addc (st : MySQL_STMT_Manager) (c : StmtContent) :
    MySQL_STMT_Global_info × MySQL_STMT_Manager :=
  st.add_prepared_statement c.hostgroup c.user c.schema c.query c.query_length

/-- Modelled from the spec: the body of `MySQL_STMT_Manager::ref_count` is not
in src/include (declaration only).  Spec 4.3: "looks up by id, adjusts
`reference_count += delta` atomically; if the result is zero, removes the
descriptor from both indices and destroys it within the same locked operation
before returning"; a missing id reports not-found (`none`). -/
def MySQL_STMT_Manager.ref_count (st : MySQL_STMT_Manager)
    (statement_id : Nat) (cnt : Int) : Option Int × MySQL_STMT_Manager :=
  match mapLookup st.m statement_id with
  | none => (none, st)
  | some d =>
    let r := d.ref_count + cnt
    if r = 0 then
      (some 0, { st with m := mapErase st.m statement_id, h := mapErase st.h d.hash })
    else
      let d' : MySQL_STMT_Global_info := { d with ref_count := r }
      (some r, { st with m := mapSet st.m statement_id d', h := mapSet st.h d.hash d' })

/-- Modelled from the spec:
`MySQL_STMT_Manager::find_prepared_statement_by_stmt_id` is not in src/include
(declaration only); spec 4.3: a pure id-index lookup returning the descriptor
or not-found. -/
def MySQL_STMT_Manager.find_prepared_statement_by_stmt_id
    (st : MySQL_STMT_Manager) (id : Nat) : Option MySQL_STMT_Global_info :=
  mapLookup st.m id

/-- Modelled from the spec:
`MySQL_STMT_Manager::find_prepared_statement_by_hash` is not in src/include
(declaration only); spec 4.3: a pure fingerprint-index lookup returning the
descriptor or not-found. -/
def MySQL_STMT_Manager.find_prepared_statement_by_hash
    (st : MySQL_STMT_Manager) (hash : Nat) : Option MySQL_STMT_Global_info :=
  mapLookup st.h hash

/-- MySQL_STMT_Manager::total_prepared_statements from the header:
`return next_statement_id-1;`. -/
def MySQL_STMT_Manager.total_prepared_statements (st : MySQL_STMT_Manager) : Nat :=
  st.next_statement_id - 1

/-- One serialized registry mutation: an add_prepared_statement call, or a
ref_count call with the deltas the connection layer uses (+1 to take a
reference, -1 to release one; spec 6 and 7 make other deltas a caller contract
violation). -/
inductive MgrStep : MySQL_STMT_Manager → MySQL_STMT_Manager → Prop where
  | add (st : MySQL_STMT_Manager) (c : StmtContent) : MgrStep st (st.addc c).2
  | refc (st : MySQL_STMT_Manager) (id : Nat) (cnt : Int)
      (hc : cnt = 1 ∨ cnt = -1) : MgrStep st (st.ref_count id cnt).2

/-- States reachable from `s` by a sequence of registry mutations (the find
operations and total_prepared_statements do not change the state). -/
inductive MgrReachableFrom : MySQL_STMT_Manager → MySQL_STMT_Manager → Prop where
  | refl (s : MySQL_STMT_Manager) : MgrReachableFrom s s
  | step {s t u : MySQL_STMT_Manager} :
      MgrReachableFrom s t → MgrStep t u → MgrReachableFrom s u

/-- States reachable from the freshly constructed manager. -/
def MgrReachable (s : MySQL_STMT_Manager) : Prop :=
  MgrReachableFrom MySQL_STMT_Manager.init s

/-! ## Branch equations for the registry operations -/
/-- Descriptor constructed on a dedup miss. -/
def newDesc (st : MySQL_STMT_Manager) (c : StmtContent) : MySQL_STMT_Global_info :=
  ⟨c.fp, c.user, c.schema, c.query, c.query_length, c.hostgroup, 1, st.next_statement_id⟩

/-- Descriptor after a reference-count adjustment. -/
def bump (d : MySQL_STMT_Global_info) (r : Int) : MySQL_STMT_Global_info :=
  { d with ref_count := r }

/-! ## The registry invariant -/
/-- Internal well-formedness of a registry state: distinct keys in both
indices, positive id counter, and the cross-index facts tying every entry of
one index to its twin in the other, with a positive reference count and an id
below the counter. -/
structure MInv (st : MySQL_STMT_Manager) : Prop where
  ndm : KeysND st.m
  ndh : KeysND st.h
  next_pos : 1 ≤ st.next_statement_id
  mfacts : ∀ p ∈ st.m, p.2.statement_id = p.1 ∧ mapLookup st.h p.2.hash = some p.2 ∧
    1 ≤ p.2.ref_count ∧ 1 ≤ p.1 ∧ p.1 < st.next_statement_id
  hfacts : ∀ q ∈ st.h, q.2.hash = q.1 ∧ mapLookup st.m q.2.statement_id = some q.2

/-! ## Claim-facing predicates and sample inputs -/
/-- Sample content tuple used for concrete instances. -/
def cA : StmtContent := ⟨1, "app", "db1", "SELECT 1", 8⟩

/-- Second sample content tuple (small fields). -/
def cB : StmtContent := ⟨1, "u", "s", "q", 1⟩

/-- The registry state after one registration of `cA`. -/
def stA : MySQL_STMT_Manager := (MySQL_STMT_Manager.init.addc cA).2

/-- Index consistency as claimed: both indices hold the same descriptors, the
fingerprint index is keyed by the descriptors' hashes (hence one live
descriptor per fingerprint, made explicit by the third conjunct), and no
indexed descriptor has a zero reference count. -/
def IndexConsistent (st : MySQL_STMT_Manager) : Prop :=
  (∀ p ∈ st.m, mapLookup st.h p.2.hash = some p.2 ∧ p.2.ref_count ≠ 0) ∧
  (∀ q ∈ st.h, q.2.hash = q.1 ∧ mapLookup st.m q.2.statement_id = some q.2 ∧
    q.2.ref_count ≠ 0) ∧
  (∀ p ∈ st.m, ∀ p' ∈ st.m, p.2.hash = p'.2.hash → p.1 = p'.1)

/-- The very first identifier issued by a fresh registry is 1, whatever the
content. -/
def FirstIssuedIdIsOne : Prop :=
  ∀ c : StmtContent, (MySQL_STMT_Manager.init.addc c).1.statement_id = 1

/-- Two back-to-back calls with differing content receive distinct
statement ids. -/
def DistinctIdsForDistinctContent (st : MySQL_STMT_Manager) : Prop :=
  ∀ c1 c2 : StmtContent, c1 ≠ c2 →
    ((st.addc c1).2.addc c2).1.statement_id ≠ (st.addc c1).1.statement_id

/-- Identifiers handed out by allocating (dedup-miss) calls are strictly
increasing in allocation order. -/
def AllocatedIdsIncrease (st : MySQL_STMT_Manager) : Prop :=
  ∀ c : StmtContent, st.find_prepared_statement_by_hash c.fp = none →
    ∀ st' : MySQL_STMT_Manager, MgrReachableFrom (st.addc c).2 st' →
      ∀ c' : StmtContent, st'.find_prepared_statement_by_hash c'.fp = none →
        (st.addc c).1.statement_id < (st'.addc c').1.statement_id

/-- An identifier below the counter whose descriptor is gone stays gone: no
later state resurrects it and no later add returns it. -/
def NoIdReuse (st : MySQL_STMT_Manager) : Prop :=
  ∀ i : Nat, i < st.next_statement_id →
    st.find_prepared_statement_by_stmt_id i = none →
    ∀ st' : MySQL_STMT_Manager, MgrReachableFrom st st' →
      st'.find_prepared_statement_by_stmt_id i = none ∧
      ∀ c : StmtContent, (st'.addc c).1.statement_id ≠ i

/-- N add_prepared_statement calls with the same content, serialized by the
registry write lock (spec 5: every mutation holds the exclusive lock for its
whole critical section, so concurrent calls execute as some serial order of
atomic steps). -/
def addIter : Nat → StmtContent → MySQL_STMT_Manager → MySQL_STMT_Manager
  | 0, _, st => st
  | n + 1, c, st => ((addIter n c st).addc c).2

/-- The descriptor for content `c` after n references: id 1, count n. -/
def descAfter (c : StmtContent) (n : Nat) : MySQL_STMT_Global_info :=
  ⟨c.fp, c.user, c.schema, c.query, c.query_length, c.hostgroup, (n : Int), 1⟩

/-- The local table after a first insert at key 5. -/
def tbl1 : MySQL_STMTs_local := (MySQL_STMTs_local.init.insert 5 10).2

/-- One local-table mutation: an insert or an erase. -/
inductive TblStep : MySQL_STMTs_local → MySQL_STMTs_local → Prop where
  | ins (t : MySQL_STMTs_local) (k v : Nat) : TblStep t (t.insert k v).2
  | ers (t : MySQL_STMTs_local) (k : Nat) : TblStep t (t.erase k).2

/-- Local-table states reachable from the constructor by inserts and erases. -/
inductive TblReachable : MySQL_STMTs_local → Prop where
  | base : TblReachable MySQL_STMTs_local.init
  | step {t u : MySQL_STMTs_local} : TblReachable t → TblStep t u → TblReachable u

/-- Identical inputs always produce identical fingerprints. -/
def HashDeterministic : Prop :=
  ∀ (hg : Nat) (u s q : String) (ql : Nat) (hg' : Nat) (u' s' q' : String) (ql' : Nat),
    hg = hg' → u = u' → s = s' → q = q' → ql = ql' →
    MySQL_STMTs_local.compute_hash hg u s q ql =
      MySQL_STMTs_local.compute_hash hg' u' s' q' ql'

/-- Moving text across the user/schema field boundary changes the
fingerprint. -/
def FieldBoundarySafe : Prop :=
  ∀ (hg : Nat) (u1 s1 u2 s2 q : String) (ql : Nat),
    u1 ++ s1 = u2 ++ s2 → u1 ≠ u2 →
    MySQL_STMTs_local.compute_hash hg u1 s1 q ql ≠
      MySQL_STMTs_local.compute_hash hg u2 s2 q ql

/-! ## Theorems -/

theorem mapLookup_mapSet_self {α : Type} (l : List (Nat × α)) (k : Nat) (v : α) :
    mapLookup (mapSet l k v) k = some v := by
  induction l with
  | nil => simp [mapSet, mapLookup]
  | cons a t ih =>
    by_cases h : a.1 = k
    · simp [mapSet, h, mapLookup]
    · simp [mapSet, h, mapLookup, ih]

theorem mapLookup_mapSet_ne {α : Type} (l : List (Nat × α)) (k k' : Nat) (v : α)
    (h : k' ≠ k) : mapLookup (mapSet l k v) k' = mapLookup l k' := by
  have h2 : ¬ k = k' := fun e => h e.symm
  induction l with
  | nil => simp [mapSet, mapLookup, h2]
  | cons a t ih =>
    by_cases ha : a.1 = k
    · simp [mapSet, ha, mapLookup, h2]
    · simp [mapSet, ha, mapLookup, ih]

theorem mapLookup_mapErase_self {α : Type} (l : List (Nat × α)) (k : Nat) :
    mapLookup (mapErase l k) k = none := by
  induction l with
  | nil => rfl
  | cons a t ih =>
    by_cases h : a.1 = k
    · simp [mapErase, h, ih]
    · simp [mapErase, h, mapLookup, ih]

theorem mapLookup_mapErase_ne {α : Type} (l : List (Nat × α)) (k k' : Nat)
    (h : k' ≠ k) : mapLookup (mapErase l k) k' = mapLookup l k' := by
  have h3 : ¬ k = k' := fun e => h e.symm
  induction l with
  | nil => rfl
  | cons a t ih =>
    by_cases ha : a.1 = k
    · simp [mapErase, ha, mapLookup, h3, ih]
    · simp [mapErase, ha, mapLookup, ih]

theorem mapLookup_mapErase_none {α : Type} (l : List (Nat × α)) (k k' : Nat)
    (h : mapLookup l k' = none) : mapLookup (mapErase l k) k' = none := by
  by_cases hk : k' = k
  · rw [hk]; exact mapLookup_mapErase_self l k
  · rw [mapLookup_mapErase_ne l k k' hk]; exact h

theorem mem_of_mapLookup {α : Type} {l : List (Nat × α)} {k : Nat} {v : α}
    (h : mapLookup l k = some v) : (k, v) ∈ l := by
  induction l with
  | nil => simp [mapLookup] at h
  | cons a t ih =>
    by_cases ha : a.1 = k
    · simp [mapLookup, ha] at h
      have hav : a = (k, v) := by
        cases a
        simp only at ha h
        simp [ha, h]
      rw [← hav]
      exact List.mem_cons_self a t
    · simp [mapLookup, ha] at h
      exact List.mem_cons_of_mem a (ih h)

theorem mapLookup_eq_none_iff {α : Type} {l : List (Nat × α)} {k : Nat} :
    mapLookup l k = none ↔ ∀ p ∈ l, p.1 ≠ k := by
  induction l with
  | nil => simp [mapLookup]
  | cons a t ih =>
    by_cases ha : a.1 = k
    · simp [mapLookup, ha]
    · simp [mapLookup, ha, ih]

theorem mapLookup_of_mem {α : Type} {l : List (Nat × α)} {k : Nat} {v : α}
    (hnd : KeysND l) (h : (k, v) ∈ l) : mapLookup l k = some v := by
  induction l with
  | nil => simp at h
  | cons a t ih =>
    rcases List.mem_cons.mp h with h1 | h1
    · rw [← h1]
      simp [mapLookup]
    · have hd := (List.pairwise_cons.mp hnd).1
      have hak : a.1 ≠ k := by
        have := hd (k, v) h1
        simpa using this
      simp [mapLookup, hak]
      exact ih (List.pairwise_cons.mp hnd).2 h1

theorem mem_mapSet {α : Type} {l : List (Nat × α)} {k : Nat} {v : α} {p : Nat × α}
    (h : p ∈ mapSet l k v) : p = (k, v) ∨ p ∈ l := by
  induction l with
  | nil => simp [mapSet] at h; left; exact h
  | cons a t ih =>
    by_cases ha : a.1 = k
    · simp [mapSet, ha] at h
      rcases h with h | h
      · left; simpa using h
      · right; exact List.mem_cons_of_mem a h
    · simp [mapSet, ha] at h
      rcases h with h | h
      · right; simp [h]
      · rcases ih h with h1 | h1
        · left; exact h1
        · right; exact List.mem_cons_of_mem a h1

theorem mem_mapSet_nd {α : Type} {l : List (Nat × α)} {k : Nat} {v : α} {p : Nat × α}
    (hnd : KeysND l) (h : p ∈ mapSet l k v) : p = (k, v) ∨ (p ∈ l ∧ p.1 ≠ k) := by
  induction l with
  | nil => simp [mapSet] at h; left; exact h
  | cons a t ih =>
    have hd := (List.pairwise_cons.mp hnd).1
    have ht := (List.pairwise_cons.mp hnd).2
    by_cases ha : a.1 = k
    · simp [mapSet, ha] at h
      rcases h with h | h
      · left; simpa using h
      · right
        refine ⟨List.mem_cons_of_mem a h, ?_⟩
        have := hd p h
        rw [ha] at this
        exact fun e => this e.symm
    · simp [mapSet, ha] at h
      rcases h with h | h
      · right
        constructor
        · simp [h]
        · rw [h]; exact ha
      · rcases ih ht h with h1 | h1
        · left; exact h1
        · right; exact ⟨List.mem_cons_of_mem a h1.1, h1.2⟩

theorem keysND_mapSet {α : Type} {l : List (Nat × α)} (k : Nat) (v : α)
    (hnd : KeysND l) : KeysND (mapSet l k v) := by
  induction l with
  | nil => simp [mapSet, KeysND]
  | cons a t ih =>
    have hd := (List.pairwise_cons.mp hnd).1
    have ht := (List.pairwise_cons.mp hnd).2
    by_cases ha : a.1 = k
    · rw [KeysND, mapSet]
      simp only [ha, if_pos]
      refine List.pairwise_cons.mpr ⟨?_, ht⟩
      intro b hb
      have := hd b hb
      rw [ha] at this
      exact this
    · rw [KeysND, mapSet]
      simp only [ha, if_neg, not_false_iff]
      refine List.pairwise_cons.mpr ⟨?_, ih ht⟩
      intro b hb
      rcases mem_mapSet hb with h1 | h1
      · rw [h1]; exact ha
      · exact hd b h1

theorem mem_mapErase {α : Type} {l : List (Nat × α)} {k : Nat} {p : Nat × α}
    (h : p ∈ mapErase l k) : p ∈ l := by
  induction l with
  | nil => simp [mapErase] at h
  | cons a t ih =>
    by_cases ha : a.1 = k
    · simp [mapErase, ha] at h
      exact List.mem_cons_of_mem a (ih h)
    · simp [mapErase, ha] at h
      rcases h with h | h
      · simp [h]
      · exact List.mem_cons_of_mem a (ih h)

theorem keysND_mapErase {α : Type} {l : List (Nat × α)} (k : Nat)
    (hnd : KeysND l) : KeysND (mapErase l k) := by
  induction l with
  | nil => simp [mapErase, KeysND]
  | cons a t ih =>
    have hd := (List.pairwise_cons.mp hnd).1
    have ht := (List.pairwise_cons.mp hnd).2
    by_cases ha : a.1 = k
    · rw [KeysND, mapErase]
      simp only [ha, if_pos]
      exact ih ht
    · rw [KeysND, mapErase]
      simp only [ha, if_neg, not_false_iff]
      refine List.pairwise_cons.mpr ⟨?_, ih ht⟩
      intro b hb
      exact hd b (mem_mapErase hb)

theorem mapErase_eq_self {α : Type} {l : List (Nat × α)} {k : Nat}
    (h : ∀ p ∈ l, p.1 ≠ k) : mapErase l k = l := by
  induction l with
  | nil => rfl
  | cons a t ih =>
    have ha : a.1 ≠ k := h a (List.mem_cons_self a t)
    rw [mapErase]
    simp only [ha, if_neg, not_false_iff]
    rw [ih (fun p hp => h p (List.mem_cons_of_mem a hp))]

theorem length_mapErase_of_mem {α : Type} {l : List (Nat × α)} {k : Nat} {v : α}
    (hnd : KeysND l) (h : mapLookup l k = some v) :
    (mapErase l k).length + 1 = l.length := by
  induction l with
  | nil => simp [mapLookup] at h
  | cons a t ih =>
    have hd := (List.pairwise_cons.mp hnd).1
    have ht := (List.pairwise_cons.mp hnd).2
    by_cases ha : a.1 = k
    · have herase : mapErase t k = t := by
        refine mapErase_eq_self ?_
        intro p hp
        have := hd p hp
        rw [ha] at this
        exact Ne.symm this
      rw [mapErase]
      simp only [ha, if_pos, herase]
      simp
    · simp [mapLookup, ha] at h
      rw [mapErase]
      simp only [ha, if_neg, not_false_iff]
      simp only [List.length_cons]
      rw [← ih ht h]

theorem encList_injective : Function.Injective encList := by
  intro l1 l2 h
  induction l1 generalizing l2 with
  | nil =>
    cases l2 with
    | nil => rfl
    | cons b u => simp [encList] at h
  | cons a t ih =>
    cases l2 with
    | nil => simp [encList] at h
    | cons b u =>
      simp only [encList, Nat.add_right_cancel_iff] at h
      obtain ⟨h1, h2⟩ := Nat.pair_eq_pair.mp h
      rw [h1, ih h2]

theorem char_toNat_injective : Function.Injective Char.toNat := by
  intro a b h
  apply Char.ext
  apply UInt32.ext
  simpa [Char.toNat] using h

theorem encStr_injective : Function.Injective encStr := by
  intro s1 s2 h
  have h1 : s1.toList.map Char.toNat = s2.toList.map Char.toNat := encList_injective h
  have h2 : s1.toList = s2.toList :=
    (List.map_injective_iff.mpr char_toNat_injective) h1
  exact String.ext h2

theorem compute_hash_injective {hg hg' : Nat} {u s q u' s' q' : String} {ql ql' : Nat}
    (h : MySQL_STMTs_local.compute_hash hg u s q ql =
      MySQL_STMTs_local.compute_hash hg' u' s' q' ql') :
    hg = hg' ∧ u = u' ∧ s = s' ∧ q = q' ∧ ql = ql' := by
  unfold MySQL_STMTs_local.compute_hash at h
  obtain ⟨h1, h2⟩ := Nat.pair_eq_pair.mp h
  obtain ⟨h3, h4⟩ := Nat.pair_eq_pair.mp h2
  obtain ⟨h5, h6⟩ := Nat.pair_eq_pair.mp h4
  obtain ⟨h7, h8⟩ := Nat.pair_eq_pair.mp h6
  exact ⟨h1, encStr_injective h3, encStr_injective h5, encStr_injective h7, h8⟩

theorem addc_hit {st : MySQL_STMT_Manager} {c : StmtContent}
    {d : MySQL_STMT_Global_info} (heq : mapLookup st.h c.fp = some d) :
    st.addc c = (bump d (d.ref_count + 1),
      { st with m := mapSet st.m d.statement_id (bump d (d.ref_count + 1)),
                h := mapSet st.h c.fp (bump d (d.ref_count + 1)) }) := by
  unfold StmtContent.fp at heq
  unfold MySQL_STMT_Manager.addc MySQL_STMT_Manager.add_prepared_statement bump
    StmtContent.fp
  dsimp only
  rw [heq]

theorem addc_miss {st : MySQL_STMT_Manager} {c : StmtContent}
    (heq : mapLookup st.h c.fp = none) :
    st.addc c = (newDesc st c,
      ⟨st.next_statement_id + 1,
       mapSet st.m st.next_statement_id (newDesc st c),
       mapSet st.h c.fp (newDesc st c)⟩) := by
  unfold StmtContent.fp at heq
  unfold MySQL_STMT_Manager.addc MySQL_STMT_Manager.add_prepared_statement newDesc
    StmtContent.fp
  dsimp only
  rw [heq]

theorem refc_notfound {st : MySQL_STMT_Manager} {id : Nat} {cnt : Int}
    (heq : mapLookup st.m id = none) :
    st.ref_count id cnt = (none, st) := by
  unfold MySQL_STMT_Manager.ref_count
  rw [heq]

theorem refc_zero {st : MySQL_STMT_Manager} {id : Nat} {cnt : Int}
    {d : MySQL_STMT_Global_info} (heq : mapLookup st.m id = some d)
    (hz : d.ref_count + cnt = 0) :
    st.ref_count id cnt =
      (some 0, { st with m := mapErase st.m id, h := mapErase st.h d.hash }) := by
  unfold MySQL_STMT_Manager.ref_count
  rw [heq]
  simp [hz]

theorem refc_live {st : MySQL_STMT_Manager} {id : Nat} {cnt : Int}
    {d : MySQL_STMT_Global_info} (heq : mapLookup st.m id = some d)
    (hnz : d.ref_count + cnt ≠ 0) :
    st.ref_count id cnt =
      (some (d.ref_count + cnt),
       { st with m := mapSet st.m id (bump d (d.ref_count + cnt)),
                 h := mapSet st.h d.hash (bump d (d.ref_count + cnt)) }) := by
  unfold MySQL_STMT_Manager.ref_count bump
  rw [heq]
  simp [hnz]

theorem MInv.lookup_m {st : MySQL_STMT_Manager} (hi : MInv st)
    {id : Nat} {d : MySQL_STMT_Global_info} (h : mapLookup st.m id = some d) :
    d.statement_id = id ∧ mapLookup st.h d.hash = some d ∧
      1 ≤ d.ref_count ∧ 1 ≤ id ∧ id < st.next_statement_id := by
  have hm := hi.mfacts (id, d) (mem_of_mapLookup h)
  simpa using hm

theorem MInv.lookup_h {st : MySQL_STMT_Manager} (hi : MInv st)
    {f : Nat} {d : MySQL_STMT_Global_info} (h : mapLookup st.h f = some d) :
    d.hash = f ∧ mapLookup st.m d.statement_id = some d := by
  have hh := hi.hfacts (f, d) (mem_of_mapLookup h)
  simpa using hh

theorem MInv_init : MInv MySQL_STMT_Manager.init := by
  constructor
  · simp [MySQL_STMT_Manager.init, KeysND]
  · simp [MySQL_STMT_Manager.init, KeysND]
  · simp [MySQL_STMT_Manager.init]
  · intro p hp
    simp [MySQL_STMT_Manager.init] at hp
  · intro q hq
    simp [MySQL_STMT_Manager.init] at hq

theorem MInv_addc (st : MySQL_STMT_Manager) (hi : MInv st) (c : StmtContent) :
    MInv (st.addc c).2 := by
  cases heq : mapLookup st.h c.fp with
  | some d =>
    rw [addc_hit heq]
    obtain ⟨hdh, hdm⟩ := hi.lookup_h heq
    obtain ⟨_, hlh, hrc, hge, hlt⟩ := hi.lookup_m hdm
    constructor
    · exact keysND_mapSet _ _ hi.ndm
    · exact keysND_mapSet _ _ hi.ndh
    · exact hi.next_pos
    · intro p hp
      rcases mem_mapSet_nd hi.ndm hp with hpe | ⟨hpm, hpk⟩
      · subst hpe
        refine ⟨rfl, ?_, ?_, hge, hlt⟩
        · show mapLookup (mapSet st.h c.fp (bump d (d.ref_count + 1)))
            (bump d (d.ref_count + 1)).hash = some (bump d (d.ref_count + 1))
          have : (bump d (d.ref_count + 1)).hash = c.fp := by
            simp [bump, hdh]
          rw [this]
          exact mapLookup_mapSet_self _ _ _
        · simp [bump]
          omega
      · obtain ⟨hp1, hp2, hp3, hp4, hp5⟩ := hi.mfacts p hpm
        refine ⟨hp1, ?_, hp3, hp4, hp5⟩
        by_cases hph : p.2.hash = c.fp
        · exfalso
          rw [hph] at hp2
          rw [heq] at hp2
          have hpd : p.2 = d := by
            injection hp2 with hv
            exact hv.symm
          apply hpk
          rw [← hp1, hpd]
        · rw [mapLookup_mapSet_ne _ _ _ _ hph]
          exact hp2
    · intro q hq
      rcases mem_mapSet_nd hi.ndh hq with hqe | ⟨hqh, hqk⟩
      · subst hqe
        refine ⟨by simp [bump, hdh], ?_⟩
        show mapLookup (mapSet st.m d.statement_id (bump d (d.ref_count + 1)))
          (bump d (d.ref_count + 1)).statement_id = some (bump d (d.ref_count + 1))
        have : (bump d (d.ref_count + 1)).statement_id = d.statement_id := by
          simp [bump]
        rw [this]
        exact mapLookup_mapSet_self _ _ _
      · obtain ⟨hq1, hq2⟩ := hi.hfacts q hqh
        refine ⟨hq1, ?_⟩
        by_cases hqs : q.2.statement_id = d.statement_id
        · exfalso
          rw [hqs] at hq2
          rw [hdm] at hq2
          have hqd : q.2 = d := by
            injection hq2 with hv
            exact hv.symm
          apply hqk
          rw [← hq1, hqd, hdh]
        · rw [mapLookup_mapSet_ne _ _ _ _ hqs]
          exact hq2
  | none =>
    rw [addc_miss heq]
    constructor
    · exact keysND_mapSet _ _ hi.ndm
    · exact keysND_mapSet _ _ hi.ndh
    · exact Nat.le_succ_of_le hi.next_pos
    · intro p hp
      rcases mem_mapSet_nd hi.ndm hp with hpe | ⟨hpm, hpk⟩
      · subst hpe
        refine ⟨rfl, ?_, ?_, hi.next_pos, Nat.lt_succ_self _⟩
        · show mapLookup (mapSet st.h c.fp (newDesc st c)) (newDesc st c).hash =
            some (newDesc st c)
          have : (newDesc st c).hash = c.fp := rfl
          rw [this]
          exact mapLookup_mapSet_self _ _ _
        · simp [newDesc]
      · obtain ⟨hp1, hp2, hp3, hp4, hp5⟩ := hi.mfacts p hpm
        refine ⟨hp1, ?_, hp3, hp4, Nat.lt_succ_of_lt hp5⟩
        by_cases hph : p.2.hash = c.fp
        · exfalso
          rw [hph, heq] at hp2
          exact Option.noConfusion hp2
        · rw [mapLookup_mapSet_ne _ _ _ _ hph]
          exact hp2
    · intro q hq
      rcases mem_mapSet_nd hi.ndh hq with hqe | ⟨hqh, hqk⟩
      · subst hqe
        refine ⟨rfl, ?_⟩
        show mapLookup (mapSet st.m st.next_statement_id (newDesc st c))
          (newDesc st c).statement_id = some (newDesc st c)
        have : (newDesc st c).statement_id = st.next_statement_id := rfl
        rw [this]
        exact mapLookup_mapSet_self _ _ _
      · obtain ⟨hq1, hq2⟩ := hi.hfacts q hqh
        refine ⟨hq1, ?_⟩
        have hlt : q.2.statement_id < st.next_statement_id := by
          have hmem := mem_of_mapLookup hq2
          have := hi.mfacts _ hmem
          exact this.2.2.2.2
        rw [mapLookup_mapSet_ne _ _ _ _ (Nat.ne_of_lt hlt)]
        exact hq2

theorem mem_mapErase_ne {α : Type} {l : List (Nat × α)} {k : Nat} {p : Nat × α}
    (h : p ∈ mapErase l k) : p ∈ l ∧ p.1 ≠ k := by
  induction l with
  | nil => simp [mapErase] at h
  | cons a t ih =>
    by_cases ha : a.1 = k
    · simp [mapErase, ha] at h
      obtain ⟨h1, h2⟩ := ih h
      exact ⟨List.mem_cons_of_mem a h1, h2⟩
    · simp [mapErase, ha] at h
      rcases h with h | h
      · constructor
        · simp [h]
        · rw [h]; exact ha
      · obtain ⟨h1, h2⟩ := ih h
        exact ⟨List.mem_cons_of_mem a h1, h2⟩

theorem MInv_refc (st : MySQL_STMT_Manager) (hi : MInv st) (id : Nat) (cnt : Int)
    (hc : cnt = 1 ∨ cnt = -1) : MInv (st.ref_count id cnt).2 := by
  cases heq : mapLookup st.m id with
  | none =>
    rw [refc_notfound heq]
    exact hi
  | some d =>
    obtain ⟨hdsid, hdh, hdrc, hdge, hdlt⟩ := hi.lookup_m heq
    by_cases hz : d.ref_count + cnt = 0
    · rw [refc_zero heq hz]
      constructor
      · exact keysND_mapErase _ hi.ndm
      · exact keysND_mapErase _ hi.ndh
      · exact hi.next_pos
      · intro p hp
        obtain ⟨hpm, hpk⟩ := mem_mapErase_ne hp
        obtain ⟨hp1, hp2, hp3, hp4, hp5⟩ := hi.mfacts p hpm
        refine ⟨hp1, ?_, hp3, hp4, hp5⟩
        have hph : p.2.hash ≠ d.hash := by
          intro e
          rw [e, hdh] at hp2
          injection hp2 with hv
          apply hpk
          rw [← hp1, ← hv, hdsid]
        rw [mapLookup_mapErase_ne _ _ _ hph]
        exact hp2
      · intro q hq
        obtain ⟨hqm, hqk⟩ := mem_mapErase_ne hq
        obtain ⟨hq1, hq2⟩ := hi.hfacts q hqm
        refine ⟨hq1, ?_⟩
        have hqs : q.2.statement_id ≠ id := by
          intro e
          rw [e, heq] at hq2
          injection hq2 with hv
          apply hqk
          rw [← hq1, ← hv]
        rw [mapLookup_mapErase_ne _ _ _ hqs]
        exact hq2
    · rw [refc_live heq hz]
      have hrc' : 1 ≤ d.ref_count + cnt := by
        rcases hc with h1 | h1 <;> omega
      constructor
      · exact keysND_mapSet _ _ hi.ndm
      · exact keysND_mapSet _ _ hi.ndh
      · exact hi.next_pos
      · intro p hp
        rcases mem_mapSet_nd hi.ndm hp with hpe | ⟨hpm, hpk⟩
        · subst hpe
          refine ⟨by simp [bump, hdsid], ?_, by simpa [bump] using hrc', hdge, hdlt⟩
          show mapLookup (mapSet st.h d.hash (bump d (d.ref_count + cnt)))
            (bump d (d.ref_count + cnt)).hash = some (bump d (d.ref_count + cnt))
          have : (bump d (d.ref_count + cnt)).hash = d.hash := rfl
          rw [this]
          exact mapLookup_mapSet_self _ _ _
        · obtain ⟨hp1, hp2, hp3, hp4, hp5⟩ := hi.mfacts p hpm
          refine ⟨hp1, ?_, hp3, hp4, hp5⟩
          have hph : p.2.hash ≠ d.hash := by
            intro e
            rw [e, hdh] at hp2
            injection hp2 with hv
            apply hpk
            rw [← hp1, ← hv, hdsid]
          rw [mapLookup_mapSet_ne _ _ _ _ hph]
          exact hp2
      · intro q hq
        rcases mem_mapSet_nd hi.ndh hq with hqe | ⟨hqh, hqk⟩
        · subst hqe
          refine ⟨rfl, ?_⟩
          show mapLookup (mapSet st.m id (bump d (d.ref_count + cnt)))
            (bump d (d.ref_count + cnt)).statement_id = some (bump d (d.ref_count + cnt))
          have : (bump d (d.ref_count + cnt)).statement_id = id := by
            show d.statement_id = id
            exact hdsid
          rw [this]
          exact mapLookup_mapSet_self _ _ _
        · obtain ⟨hq1, hq2⟩ := hi.hfacts q hqh
          refine ⟨hq1, ?_⟩
          have hqs : q.2.statement_id ≠ id := by
            intro e
            rw [e, heq] at hq2
            injection hq2 with hv
            apply hqk
            rw [← hq1, ← hv]
          rw [mapLookup_mapSet_ne _ _ _ _ hqs]
          exact hq2

theorem MInv_step {s t : MySQL_STMT_Manager} (hi : MInv s) (hstep : MgrStep s t) :
    MInv t := by
  cases hstep with
  | add c => exact MInv_addc s hi c
  | refc id cnt hc => exact MInv_refc s hi id cnt hc

theorem MInv_reachableFrom {s t : MySQL_STMT_Manager} (hi : MInv s)
    (h : MgrReachableFrom s t) : MInv t := by
  induction h with
  | refl => exact hi
  | step hr hstep ih => exact MInv_step ih hstep

theorem MInv_reachable {s : MySQL_STMT_Manager} (h : MgrReachable s) : MInv s :=
  MInv_reachableFrom MInv_init h

/-! ## Evolution facts along registry runs -/
theorem addc_next {st : MySQL_STMT_Manager} {c : StmtContent} :
    st.next_statement_id ≤ (st.addc c).2.next_statement_id := by
  cases heq : mapLookup st.h c.fp with
  | some d => rw [addc_hit heq]
  | none =>
    rw [addc_miss heq]
    exact Nat.le_succ _

theorem refc_next {st : MySQL_STMT_Manager} {id : Nat} {cnt : Int} :
    st.next_statement_id ≤ (st.ref_count id cnt).2.next_statement_id := by
  cases heq : mapLookup st.m id with
  | none => rw [refc_notfound heq]
  | some d =>
    by_cases hz : d.ref_count + cnt = 0
    · rw [refc_zero heq hz]
    · rw [refc_live heq hz]

theorem next_mono_step {s t : MySQL_STMT_Manager} (hstep : MgrStep s t) :
    s.next_statement_id ≤ t.next_statement_id := by
  cases hstep with
  | add c => exact addc_next
  | refc id cnt hc => exact refc_next

theorem next_mono {s t : MySQL_STMT_Manager} (h : MgrReachableFrom s t) :
    s.next_statement_id ≤ t.next_statement_id := by
  induction h with
  | refl => exact Nat.le_refl _
  | step hr hstep ih => exact ih.trans (next_mono_step hstep)

theorem dead_id_step {s t : MySQL_STMT_Manager} (hi : MInv s) (hstep : MgrStep s t)
    {i : Nat} (hlt : i < s.next_statement_id) (hnone : mapLookup s.m i = none) :
    mapLookup t.m i = none := by
  cases hstep with
  | add c =>
    cases heq : mapLookup s.h c.fp with
    | some d =>
      rw [addc_hit heq]
      obtain ⟨hdh, hdm⟩ := hi.lookup_h heq
      have hne : i ≠ d.statement_id := by
        intro e
        rw [← e] at hdm
        rw [hdm] at hnone
        exact Option.noConfusion hnone
      show mapLookup (mapSet s.m d.statement_id (bump d (d.ref_count + 1))) i = none
      rw [mapLookup_mapSet_ne _ _ _ _ hne]
      exact hnone
    | none =>
      rw [addc_miss heq]
      show mapLookup (mapSet s.m s.next_statement_id (newDesc s c)) i = none
      rw [mapLookup_mapSet_ne _ _ _ _ (Nat.ne_of_lt hlt)]
      exact hnone
  | refc id cnt hc =>
    cases heq : mapLookup s.m id with
    | none =>
      rw [refc_notfound heq]
      exact hnone
    | some d =>
      have hne : i ≠ id := by
        intro e
        rw [← e] at heq
        rw [heq] at hnone
        exact Option.noConfusion hnone
      by_cases hz : d.ref_count + cnt = 0
      · rw [refc_zero heq hz]
        exact mapLookup_mapErase_none _ _ _ hnone
      · rw [refc_live heq hz]
        show mapLookup (mapSet s.m id (bump d (d.ref_count + cnt))) i = none
        rw [mapLookup_mapSet_ne _ _ _ _ hne]
        exact hnone

theorem dead_id_preserved {s t : MySQL_STMT_Manager} (hi : MInv s)
    (h : MgrReachableFrom s t) {i : Nat} (hlt : i < s.next_statement_id)
    (hnone : mapLookup s.m i = none) : mapLookup t.m i = none := by
  induction h with
  | refl => exact hnone
  | step hr hstep ih =>
    exact dead_id_step (MInv_reachableFrom hi hr) hstep
      (Nat.lt_of_lt_of_le hlt (next_mono hr)) ih

/-! ## Result-shape facts for add_prepared_statement -/
theorem addc_result_hash {st : MySQL_STMT_Manager} (hi : MInv st) (c : StmtContent) :
    (st.addc c).1.hash = c.fp ∧
    mapLookup (st.addc c).2.h c.fp = some (st.addc c).1 := by
  cases heq : mapLookup st.h c.fp with
  | some d =>
    rw [addc_hit heq]
    obtain ⟨hdh, _⟩ := hi.lookup_h heq
    constructor
    · show d.hash = c.fp
      exact hdh
    · exact mapLookup_mapSet_self _ _ _
  | none =>
    rw [addc_miss heq]
    exact ⟨rfl, mapLookup_mapSet_self _ _ _⟩

theorem addc_h_other {st : MySQL_STMT_Manager} {c : StmtContent} {k : Nat}
    (hk : k ≠ c.fp) : mapLookup (st.addc c).2.h k = mapLookup st.h k := by
  cases heq : mapLookup st.h c.fp with
  | some d =>
    rw [addc_hit heq]
    exact mapLookup_mapSet_ne _ _ _ _ hk
  | none =>
    rw [addc_miss heq]
    exact mapLookup_mapSet_ne _ _ _ _ hk

theorem fp_injective {c1 c2 : StmtContent} (h : c1.fp = c2.fp) : c1 = c2 := by
  obtain ⟨h1, h2, h3, h4, h5⟩ := compute_hash_injective h
  cases c1
  cases c2
  simp only at h1 h2 h3 h4 h5
  simp [h1, h2, h3, h4, h5]

/-- C2: if a `ref_count` call brings a live descriptor's reference count to
exactly zero, the operation reports the zero result and, before returning,
has removed the descriptor from both indices: afterwards neither
`find_prepared_statement_by_stmt_id` on its id nor
`find_prepared_statement_by_hash` on its fingerprint finds it. -/
theorem ref_count_zero_collapse (st : MySQL_STMT_Manager) (id : Nat) (cnt : Int)
    (d : MySQL_STMT_Global_info)
    (hd : st.find_prepared_statement_by_stmt_id id = some d)
    (hz : d.ref_count + cnt = 0) :
    (st.ref_count id cnt).1 = some 0 ∧
    (st.ref_count id cnt).2.find_prepared_statement_by_stmt_id id = none ∧
    (st.ref_count id cnt).2.find_prepared_statement_by_hash d.hash = none := by
  have hm : mapLookup st.m id = some d := hd
  rw [refc_zero hm hz]
  refine ⟨rfl, ?_, ?_⟩
  · show mapLookup (mapErase st.m id) id = none
    exact mapLookup_mapErase_self _ _
  · show mapLookup (mapErase st.h d.hash) d.hash = none
    exact mapLookup_mapErase_self _ _

/-- Witness for C2 at a concrete state: the lone descriptor of `stA` has
reference count 1, and `ref_count 1 (-1)` collapses it out of both indices. -/
theorem ref_count_zero_collapse_witness :
    (stA.find_prepared_statement_by_stmt_id 1 = some (newDesc MySQL_STMT_Manager.init cA) ∧
     (newDesc MySQL_STMT_Manager.init cA).ref_count + (-1) = 0) ∧
    ((stA.ref_count 1 (-1)).1 = some 0 ∧
     (stA.ref_count 1 (-1)).2.find_prepared_statement_by_stmt_id 1 = none ∧
     (stA.ref_count 1 (-1)).2.find_prepared_statement_by_hash
       (newDesc MySQL_STMT_Manager.init cA).hash = none) := by
  refine ⟨⟨?_, ?_⟩, ref_count_zero_collapse stA 1 (-1) _ ?_ ?_⟩ <;> decide

/-- C3: every registry state reachable by the registry operations has
consistent indices: same descriptor set in both, one live descriptor per
fingerprint, and no indexed descriptor with reference count zero. -/
theorem registry_index_invariant (st : MySQL_STMT_Manager)
    (hr : MgrReachable st) : IndexConsistent st := by
  have hi := MInv_reachable hr
  refine ⟨?_, ?_, ?_⟩
  · intro p hp
    obtain ⟨_, h2, h3, _, _⟩ := hi.mfacts p hp
    exact ⟨h2, by omega⟩
  · intro q hq
    obtain ⟨h1, h2⟩ := hi.hfacts q hq
    obtain ⟨_, _, h3, _, _⟩ := hi.mfacts _ (mem_of_mapLookup h2)
    dsimp only at h3
    exact ⟨h1, h2, by omega⟩
  · intro p hp p' hp'
    intro hhash
    obtain ⟨hp1, hp2, _, _, _⟩ := hi.mfacts p hp
    obtain ⟨hq1, hq2, _, _, _⟩ := hi.mfacts p' hp'
    rw [hhash] at hp2
    rw [hp2] at hq2
    injection hq2 with hv
    rw [← hp1, ← hq1, hv]

/-- Witness for C3 at a concrete reachable state. -/
theorem registry_index_invariant_witness : IndexConsistent stA :=
  registry_index_invariant stA
    (MgrReachableFrom.step (MgrReachableFrom.refl MySQL_STMT_Manager.init)
      (MgrStep.add MySQL_STMT_Manager.init cA))

/-- C5: total_prepared_statements returns `next_statement_id - 1`, the first
identifier ever issued is 1, and the total is monotone along every run of
registry operations (it counts identifiers ever allocated, so destroying
descriptors never decreases it). -/
theorem total_prepared_statements_arith (st st' : MySQL_STMT_Manager)
    (hr : MgrReachable st) (hrf : MgrReachableFrom st st') :
    st.total_prepared_statements = st.next_statement_id - 1 ∧
    FirstIssuedIdIsOne ∧
    st.total_prepared_statements ≤ st'.total_prepared_statements := by
  refine ⟨rfl, ?_, ?_⟩
  · intro c
    have heq : mapLookup MySQL_STMT_Manager.init.h c.fp = none := rfl
    rw [addc_miss heq]
    rfl
  · exact Nat.sub_le_sub_right (next_mono hrf) 1

/-- Witness for C5: instantiated at the fresh registry and the state after one
registration. -/
theorem total_prepared_statements_arith_witness :
    MySQL_STMT_Manager.init.total_prepared_statements =
      MySQL_STMT_Manager.init.next_statement_id - 1 ∧
    FirstIssuedIdIsOne ∧
    MySQL_STMT_Manager.init.total_prepared_statements ≤
      stA.total_prepared_statements :=
  total_prepared_statements_arith MySQL_STMT_Manager.init stA
    (MgrReachableFrom.refl MySQL_STMT_Manager.init)
    (MgrReachableFrom.step (MgrReachableFrom.refl MySQL_STMT_Manager.init)
      (MgrStep.add MySQL_STMT_Manager.init cA))

/-- C1 (amended): calling add_prepared_statement twice with identical content
returns the same statement_id both times and increments the descriptor's
reference count by 1 each call, and the second, dedup-hit call allocates no
new identifier; when the content's fingerprint is not yet registered the
first call creates the descriptor with reference count 1 and
total_prepared_statements increases by exactly 1 over the two calls (when it
is already registered the total is unchanged, which is what the
counterexample exhibits against the claim as stated). -/
theorem add_prepared_statement_idempotent_dedup (st : MySQL_STMT_Manager)
    (c : StmtContent) (hr : MgrReachable st)
    (hfresh : st.find_prepared_statement_by_hash c.fp = none) :
    ((st.addc c).2.addc c).1.statement_id = (st.addc c).1.statement_id ∧
    (st.addc c).1.ref_count = 1 ∧
    ((st.addc c).2.addc c).1.ref_count = (st.addc c).1.ref_count + 1 ∧
    ((st.addc c).2.addc c).2.next_statement_id = (st.addc c).2.next_statement_id ∧
    ((st.addc c).2.addc c).2.total_prepared_statements =
      st.total_prepared_statements + 1 := by
  have hmiss : mapLookup st.h c.fp = none := hfresh
  have hnext := (MInv_reachable hr).next_pos
  rw [addc_miss hmiss]
  have hhit : mapLookup
      (mapSet st.h c.fp (newDesc st c)) c.fp = some (newDesc st c) :=
    mapLookup_mapSet_self _ _ _
  have hhit2 : mapLookup
      (⟨st.next_statement_id + 1,
        mapSet st.m st.next_statement_id (newDesc st c),
        mapSet st.h c.fp (newDesc st c)⟩ : MySQL_STMT_Manager).h c.fp =
      some (newDesc st c) := hhit
  rw [addc_hit hhit2]
  refine ⟨rfl, rfl, rfl, rfl, ?_⟩
  show st.next_statement_id + 1 - 1 = st.next_statement_id - 1 + 1
  omega

/-- Witness for C1 at the fresh registry and the sample content. -/
theorem add_prepared_statement_idempotent_dedup_witness :
    (MySQL_STMT_Manager.init.find_prepared_statement_by_hash cA.fp = none) ∧
    (((MySQL_STMT_Manager.init.addc cA).2.addc cA).1.statement_id =
       (MySQL_STMT_Manager.init.addc cA).1.statement_id ∧
     (MySQL_STMT_Manager.init.addc cA).1.ref_count = 1 ∧
     ((MySQL_STMT_Manager.init.addc cA).2.addc cA).1.ref_count =
       (MySQL_STMT_Manager.init.addc cA).1.ref_count + 1 ∧
     ((MySQL_STMT_Manager.init.addc cA).2.addc cA).2.next_statement_id =
       (MySQL_STMT_Manager.init.addc cA).2.next_statement_id ∧
     ((MySQL_STMT_Manager.init.addc cA).2.addc cA).2.total_prepared_statements =
       MySQL_STMT_Manager.init.total_prepared_statements + 1) :=
  ⟨rfl, add_prepared_statement_idempotent_dedup MySQL_STMT_Manager.init cA
    (MgrReachableFrom.refl MySQL_STMT_Manager.init) rfl⟩

/-- Counterexample to C1 as stated: at the reachable state `stA`, whose
fingerprint index already holds `cA`, two further identical calls leave
total_prepared_statements unchanged instead of increasing it by 1. -/
theorem add_prepared_statement_idempotent_dedup_cex :
    ¬ (((stA.addc cA).2.addc cA).2.total_prepared_statements =
        stA.total_prepared_statements + 1) := by decide

/-- C4: from any reachable registry state, calls with differing content get
distinct statement ids, dedup-miss allocations hand out strictly increasing
ids, and an id whose descriptor has been destroyed is never issued again. -/
theorem identifier_allocation (st : MySQL_STMT_Manager) (hr : MgrReachable st) :
    DistinctIdsForDistinctContent st ∧ AllocatedIdsIncrease st ∧ NoIdReuse st := by
  have hi := MInv_reachable hr
  refine ⟨?_, ?_, ?_⟩
  · intro c1 c2 hne hid
    have hi1 := MInv_addc st hi c1
    have h1 := addc_result_hash hi c1
    have h2 := addc_result_hash hi1 c2
    have hfp : c1.fp ≠ c2.fp := fun e => hne (fp_injective e)
    have h3 : mapLookup ((st.addc c1).2.addc c2).2.h c1.fp = some (st.addc c1).1 :=
      (addc_h_other hfp).trans h1.2
    have hi2 := MInv_addc _ hi1 c2
    obtain ⟨_, hm1⟩ := hi2.lookup_h h3
    obtain ⟨_, hm2⟩ := hi2.lookup_h h2.2
    rw [hid] at hm2
    rw [hm1] at hm2
    injection hm2 with hv
    apply hfp
    rw [← h1.1, hv, h2.1]
  · intro c hmiss st' hrf c' hmiss'
    have heq : mapLookup st.h c.fp = none := hmiss
    have heq' : mapLookup st'.h c'.fp = none := hmiss'
    rw [addc_miss heq, addc_miss heq']
    show st.next_statement_id < st'.next_statement_id
    have hmono := next_mono hrf
    have hstep : (st.addc c).2.next_statement_id = st.next_statement_id + 1 := by
      rw [addc_miss heq]
    omega
  · intro i hlt hnone st' hrf
    have hnone' : mapLookup st.m i = none := hnone
    have hdead := dead_id_preserved hi hrf hlt hnone'
    refine ⟨hdead, ?_⟩
    intro c
    have hi' := MInv_reachableFrom hi hrf
    cases heq : mapLookup st'.h c.fp with
    | some d =>
      rw [addc_hit heq]
      show d.statement_id ≠ i
      intro e
      obtain ⟨_, hm⟩ := hi'.lookup_h heq
      rw [e] at hm
      rw [hdead] at hm
      exact Option.noConfusion hm
    | none =>
      rw [addc_miss heq]
      show st'.next_statement_id ≠ i
      have := next_mono hrf
      omega

/-- Witness for C4 at the fresh registry. -/
theorem identifier_allocation_witness :
    DistinctIdsForDistinctContent MySQL_STMT_Manager.init ∧
    AllocatedIdsIncrease MySQL_STMT_Manager.init ∧
    NoIdReuse MySQL_STMT_Manager.init :=
  identifier_allocation MySQL_STMT_Manager.init
    (MgrReachableFrom.refl MySQL_STMT_Manager.init)

/-- C9: N serialized identical registrations on a fresh registry create
exactly one descriptor — each index is the singleton holding it — with
reference count N (and only one identifier, 1, ever allocated). -/
theorem concurrent_identical_adds (N : Nat) (c : StmtContent) (hN : 1 ≤ N) :
    addIter N c MySQL_STMT_Manager.init =
      ⟨2, [(1, descAfter c N)], [(c.fp, descAfter c N)]⟩ ∧
    (descAfter c N).ref_count = (N : Int) := by
  induction N with
  | zero => exact absurd hN (by omega)
  | succ n ih =>
    by_cases hn : n = 0
    · subst hn
      constructor
      · show (MySQL_STMT_Manager.init.addc c).2 = _
        have heq : mapLookup MySQL_STMT_Manager.init.h c.fp = none := rfl
        rw [addc_miss heq]
        simp [newDesc, descAfter, mapSet, MySQL_STMT_Manager.init]
      · simp [descAfter]
    · have hn1 : 1 ≤ n := by omega
      obtain ⟨ihst, ihrc⟩ := ih hn1
      constructor
      · show ((addIter n c MySQL_STMT_Manager.init).addc c).2 = _
        rw [ihst]
        have heq : mapLookup
            (⟨2, [(1, descAfter c n)], [(c.fp, descAfter c n)]⟩ :
              MySQL_STMT_Manager).h c.fp = some (descAfter c n) := by
          simp [mapLookup]
        rw [addc_hit heq]
        have hb : bump (descAfter c n) ((descAfter c n).ref_count + 1) =
            descAfter c (n + 1) := by
          simp [bump, descAfter]
        rw [hb]
        have hsid : (descAfter c n).statement_id = 1 := rfl
        simp [mapSet, hsid]
      · simp [descAfter]

/-- Witness for C9: three identical registrations. -/
theorem concurrent_identical_adds_witness :
    1 ≤ 3 ∧
    (addIter 3 cB MySQL_STMT_Manager.init =
      ⟨2, [(1, descAfter cB 3)], [(cB.fp, descAfter cB 3)]⟩ ∧
     (descAfter cB 3).ref_count = (3 : Int)) :=
  ⟨by decide, concurrent_identical_adds 3 cB (by decide)⟩

/-- C6 (amended): insert inserts only if the key is absent; when present the
call is a silent no-op retaining the existing handle (the state is unchanged);
the created-flag of the underlying map insert is used only internally to
advance num_entries, and the function itself returns no value (void, embedded
as Unit) rather than whether a new entry was created. -/
theorem MySQL_STMTs_local_insert_spec (t : MySQL_STMTs_local) (k v : Nat) :
    ((t.find k).isSome = true → (t.insert k v).2 = t) ∧
    (t.find k = none →
      (t.insert k v).2.m = (k, v) :: t.m ∧
      (t.insert k v).2.num_entries = t.num_entries + 1 ∧
      (t.insert k v).2.find k = some v) ∧
    (t.insert k v).1 = () := by
  refine ⟨?_, ?_, rfl⟩
  · intro hs
    cases heq : mapLookup t.m k with
    | none =>
      exfalso
      have : (t.find k).isSome = false := by
        simp [MySQL_STMTs_local.find, heq]
      rw [this] at hs
      exact Bool.noConfusion hs
    | some w =>
      simp [MySQL_STMTs_local.insert, mapInsert, heq]
  · intro hn
    have heq : mapLookup t.m k = none := hn
    refine ⟨?_, ?_, ?_⟩ <;>
      simp [MySQL_STMTs_local.insert, mapInsert, heq, MySQL_STMTs_local.find,
        mapLookup]

/-- Witness for C6, exercising both the occupied-key and the fresh-key
branches at concrete tables. -/
theorem MySQL_STMTs_local_insert_spec_witness :
    ((tbl1.find 5).isSome = true ∧ (tbl1.insert 5 20).2 = tbl1) ∧
    (MySQL_STMTs_local.init.find 5 = none ∧
     (MySQL_STMTs_local.init.insert 5 10).2.m = [(5, 10)] ∧
     (MySQL_STMTs_local.init.insert 5 10).2.num_entries = 0 + 1 ∧
     (MySQL_STMTs_local.init.insert 5 10).2.find 5 = some 10) :=
  ⟨⟨by decide, (MySQL_STMTs_local_insert_spec tbl1 5 20).1 (by decide)⟩,
   ⟨by decide, (MySQL_STMTs_local_insert_spec MySQL_STMTs_local.init 5 10).2.1
     (by decide)⟩⟩

/-- Counterexample to C6 as stated: insert returns void, so a call that
creates an entry (the first, which raises num_entries to 1) and a call that
creates nothing (the duplicate) return identical values — the return value
cannot report whether a new entry was created. -/
theorem MySQL_STMTs_local_insert_return_cex :
    tbl1.num_entries = 1 ∧
    (tbl1.insert 5 20).2.num_entries = 1 ∧
    (MySQL_STMTs_local.init.insert 5 10).1 = (tbl1.insert 5 20).1 := by decide

/-- C7: on a table without key 5, insert(5,A) then insert(5,B) leaves
find(5) = A (first write wins); erase(5) then reports found and afterwards
find(5) is not-found; a second erase(5) reports not-found. -/
theorem local_table_insert_find_erase (t : MySQL_STMTs_local) (A B : Nat)
    (h5 : t.find 5 = none) :
    ((t.insert 5 A).2.insert 5 B).2.find 5 = some A ∧
    (((t.insert 5 A).2.insert 5 B).2.erase 5).1 = true ∧
    ((((t.insert 5 A).2.insert 5 B).2.erase 5).2.find 5 = none) ∧
    (((((t.insert 5 A).2.insert 5 B).2.erase 5).2.erase 5).1 = false) := by
  have hm : mapLookup t.m 5 = none := h5
  have e1 : (t.insert 5 A).2 = ⟨t.num_entries + 1, (5, A) :: t.m⟩ := by
    simp [MySQL_STMTs_local.insert, mapInsert, hm]
  have e2 : ((t.insert 5 A).2.insert 5 B).2 = ⟨t.num_entries + 1, (5, A) :: t.m⟩ := by
    rw [e1]
    simp [MySQL_STMTs_local.insert, mapInsert, mapLookup]
  rw [e2]
  have he : (⟨t.num_entries + 1, (5, A) :: t.m⟩ : MySQL_STMTs_local).erase 5 =
      (true, ⟨t.num_entries + 1 - 1, mapErase ((5, A) :: t.m) 5⟩) := by
    simp [MySQL_STMTs_local.erase, mapLookup]
  refine ⟨by simp [MySQL_STMTs_local.find, mapLookup], ?_, ?_, ?_⟩
  · rw [he]
  · rw [he]
    show mapLookup (mapErase ((5, A) :: t.m) 5) 5 = none
    exact mapLookup_mapErase_self _ _
  · rw [he]
    show ((⟨t.num_entries + 1 - 1, mapErase ((5, A) :: t.m) 5⟩ :
      MySQL_STMTs_local).erase 5).1 = false
    simp [MySQL_STMTs_local.erase, mapLookup_mapErase_self]

/-- Witness for C7 on the empty table with handles 10 and 20. -/
theorem local_table_insert_find_erase_witness :
    MySQL_STMTs_local.init.find 5 = none ∧
    (((MySQL_STMTs_local.init.insert 5 10).2.insert 5 20).2.find 5 = some 10 ∧
     ((((MySQL_STMTs_local.init.insert 5 10).2.insert 5 20).2.erase 5).1 = true) ∧
     (((((MySQL_STMTs_local.init.insert 5 10).2.insert 5 20).2.erase 5).2.find 5 =
       none)) ∧
     ((((((MySQL_STMTs_local.init.insert 5 10).2.insert 5 20).2.erase 5).2.erase
       5).1 = false))) :=
  ⟨by decide, local_table_insert_find_erase MySQL_STMTs_local.init 10 20 (by decide)⟩

theorem tbl_inv {t : MySQL_STMTs_local} (h : TblReachable t) :
    t.num_entries = t.m.length ∧ KeysND t.m := by
  induction h with
  | base => exact ⟨rfl, by simp [MySQL_STMTs_local.init, KeysND]⟩
  | step hr hstep ih =>
    rename_i t u
    obtain ⟨ihn, ihk⟩ := ih
    cases hstep with
    | ins k v =>
      cases heq : mapLookup t.m k with
      | some w =>
        have e : (t.insert k v).2 = t := by
          simp [MySQL_STMTs_local.insert, mapInsert, heq]
        rw [e]
        exact ⟨ihn, ihk⟩
      | none =>
        have e : (t.insert k v).2 = ⟨t.num_entries + 1, (k, v) :: t.m⟩ := by
          simp [MySQL_STMTs_local.insert, mapInsert, heq]
        rw [e]
        constructor
        · simp [ihn]
        · refine List.pairwise_cons.mpr ⟨?_, ihk⟩
          intro b hb
          have hb2 := (mapLookup_eq_none_iff.mp heq) b hb
          exact fun e2 => hb2 e2.symm
    | ers k =>
      cases heq : mapLookup t.m k with
      | some w =>
        have e : (t.erase k).2 = ⟨t.num_entries - 1, mapErase t.m k⟩ := by
          simp [MySQL_STMTs_local.erase, heq]
        rw [e]
        have hlen := length_mapErase_of_mem ihk heq
        constructor
        · show t.num_entries - 1 = (mapErase t.m k).length
          omega
        · exact keysND_mapErase _ ihk
      | none =>
        have e : (t.erase k).2 = t := by
          simp [MySQL_STMTs_local.erase, heq]
        rw [e]
        exact ⟨ihn, ihk⟩

/-- C10: in every table state reachable by inserts and erases from the
constructor, num_entries equals the number of mappings in the map. -/
theorem local_num_entries_matches_map (t : MySQL_STMTs_local)
    (h : TblReachable t) : t.num_entries = t.m.length :=
  (tbl_inv h).1

/-- Witness for C10 after an insert, a duplicate insert and an erase. -/
theorem local_num_entries_matches_map_witness :
    ((((MySQL_STMTs_local.init.insert 5 10).2.insert 5 20).2.erase 5).2).num_entries =
      ((((MySQL_STMTs_local.init.insert 5 10).2.insert 5 20).2.erase 5).2).m.length :=
  local_num_entries_matches_map _
    (TblReachable.step
      (TblReachable.step
        (TblReachable.step TblReachable.base (TblStep.ins MySQL_STMTs_local.init 5 10))
        (TblStep.ins (MySQL_STMTs_local.init.insert 5 10).2 5 20))
      (TblStep.ers ((MySQL_STMTs_local.init.insert 5 10).2.insert 5 20).2 5))

/-- C8: the fingerprint is deterministic, field-boundary-safe in general, and
in particular hg=1,u="ab",s="c" and hg=1,u="a",s="bc" get different
fingerprints. -/
theorem compute_hash_fingerprint :
    HashDeterministic ∧ FieldBoundarySafe ∧
    MySQL_STMTs_local.compute_hash 1 "ab" "c" "SELECT 1" 8 ≠
      MySQL_STMTs_local.compute_hash 1 "a" "bc" "SELECT 1" 8 := by
  refine ⟨?_, ?_, ?_⟩
  · intro hg u s q ql hg' u' s' q' ql' h1 h2 h3 h4 h5
    rw [h1, h2, h3, h4, h5]
  · intro hg u1 s1 u2 s2 q ql hcat hne heq
    obtain ⟨_, hu, _, _, _⟩ := compute_hash_injective heq
    exact hne hu
  · intro heq
    obtain ⟨_, hu, _, _, _⟩ := compute_hash_injective heq
    exact absurd hu (by decide)
